import Mathlib

/-!
Verification of the R5 dependency-injection container (`src/R5/ioc/`).

The development shallowly embeds the container (`container.py`), the
provider registry (`registry_provider`, `alias_provider`) and the
injection decorator (`injection.py`) into Lean.

Modelling conventions:
* A registered key (a Python class / callable used as a dictionary key)
  is a `Key := Nat`.  `Container.resolve` detects cycles through the
  string `f"{module}.{qualname}"`; distinct keys are assumed to have
  distinct names, so the name is identified with the key itself.
* Object identity of created instances is modelled by allocating fresh
  natural numbers from a counter (`World.nextInst`); two instances are
  `is`-identical exactly when their numbers agree.
* Provider objects live in a heap (`World.heap`, indexed by position).
  The container dictionary maps keys to heap indices, so
  `Container.alias_provider`'s `dict[alias] = dict[target]` (which
  copies the object reference) is `assocUpdate container alias pidx`.
* The third-party `dependency_injector` providers are not part of the
  repository; their behaviour is modelled from the spec's scope
  definitions: Singleton/Resource memoize the first constructed
  instance in the provider object, Factory constructs every time.
* The `ContextVar` resolution stack of one logical call chain is
  `World.stack : Option (List Key)` (`none` = the ContextVar holds
  `None`).  Concurrency (several independent chains) is outside the
  model; all statements are about a single chain.
* Python exceptions are `Except` values; the state in which an
  exception propagates is returned alongside it.  General recursion is
  bounded by explicit fuel: a `none` result means the fuel ran out and
  carries no information about the program.
-/

abbrev Key := Nat

/-- `Scope` enum of `container.py`. -/
inductive Scope where
  | singleton
  | factory
  | resource
deriving DecidableEq, Repr

/-- The callable wrapped by a provider.  `registry_provider` either
registers the class/function itself (`plain`, no arguments are supplied
by the container) or, for a class whose constructor has parameters whose
annotated types are registered, a closure resolving each such parameter
(`autowire`, `factory` at container.py:122-129). -/
inductive FactoryFn where
  | plain (target : Key)
  | autowire (target : Key) (deps : List (String × Key))
deriving DecidableEq, Repr

/-- A `dependency_injector` provider object: its scope, the wrapped
callable and the memoized instance (used by Singleton/Resource). -/
structure Provider where
  scope : Scope
  factory : FactoryFn
  cache : Option Nat
deriving DecidableEq, Repr

/-- The mutable class-level state of `Container` plus the allocation
counter for instance identities. -/
structure World where
  container : List (Key × Nat)
  heap : List Provider
  stack : Option (List Key)
  nextInst : Nat
deriving DecidableEq, Repr

/-- Dictionary lookup in `Container._container_by_type`. -/
def assocFind (l : List (Key × Nat)) (k : Key) : Option Nat :=
  match l with
  | [] => none
  | (k', v) :: rest => if k' = k then some v else assocFind rest k

/-- Dictionary assignment `Container._container_by_type[k] = v`
(inserting keeps the position of an existing key, as a Python dict
does). -/
def assocUpdate (l : List (Key × Nat)) (k : Key) (v : Nat) : List (Key × Nat) :=
  match l with
  | [] => [(k, v)]
  | (k', v') :: rest =>
    if k' = k then (k, v) :: rest else (k', v') :: assocUpdate rest k v

/-- Heap read: dereferencing a provider object. -/
def heapGet (h : List Provider) (i : Nat) : Option Provider :=
  match h, i with
  | [], _ => none
  | p :: _, 0 => some p
  | _ :: rest, i + 1 => heapGet rest i

/-- Heap write: mutating a provider object in place. -/
def heapSet (h : List Provider) (i : Nat) (p : Provider) : List Provider :=
  match h, i with
  | [], _ => []
  | _ :: rest, 0 => p :: rest
  | q :: rest, i + 1 => q :: heapSet rest i p

/-- The `available` list computed in `get_provider`/`alias_provider`
(the formatted names of all registered keys, in dictionary order). -/
def availableKeys (w : World) : List Key := w.container.map Prod.fst

/-- `Container.in_provider`. -/
def inProvider (k : Key) (w : World) : Bool := (assocFind w.container k).isSome

/-- The exceptions of `R5/ioc/errors.py` raised by the container
itself.  The `circularDependency` chain is the list the error was
constructed with (the contents formatted into its message). -/
inductive IoCErr where
  | providerNotFound (key : Key) (available : List Key)
  | circularDependency (chain : List Key)
deriving DecidableEq, Repr

deriving instance DecidableEq for Except

/-- The `finally` block of `Container.resolve`: pop the stack and, when
it becomes empty, discard the per-chain context (`set(None)`). -/
def finallyPop (r : Except IoCErr Nat) (w : World) : (Except IoCErr Nat) × World :=
  let s := (w.stack.getD []).dropLast
  (r, { w with stack := if s = [] then none else some s })

mutual

/-- `Container.resolve` (container.py:57-77).  Obtain the chain's stack
(create it if absent), fail with `CircularDependencyError(stack+[key])`
if `key` is already on it — note the repeated key is appended to the
live stack before raising, outside the `try` —, otherwise push `key`,
look up the provider (`ProviderNotFoundError` if absent), invoke it,
and pop in a `finally`. -/
def resolve : Nat → Key → World → Option ((Except IoCErr Nat) × World)
  | 0, _, _ => none
  | fuel + 1, key, w =>
    let s := w.stack.getD []
    if key ∈ s then
      some (.error (.circularDependency (s ++ [key])),
            { w with stack := some (s ++ [key]) })
    else
      let w₁ := { w with stack := some (s ++ [key]) }
      match assocFind w₁.container key with
      | none =>
        some (finallyPop (.error (.providerNotFound key (availableKeys w₁))) w₁)
      | some pidx =>
        match callProvider fuel pidx w₁ with
        | none => none
        | some (r, w₂) => some (finallyPop r w₂)

/-- `provider()`: invoking the provider object at heap index `pidx`.
Factory scope constructs every time; Singleton/Resource return the
memoized instance or construct once and memoize. -/
def callProvider : Nat → Nat → World → Option ((Except IoCErr Nat) × World)
  | 0, _, _ => none
  | fuel + 1, pidx, w =>
    match heapGet w.heap pidx with
    | none => none
    | some p =>
      match p.scope with
      | .factory => runFactory fuel p.factory w
      | _ =>
        match p.cache with
        | some inst => some (.ok inst, w)
        | none =>
          match runFactory fuel p.factory w with
          | none => none
          | some (.error e, w') => some (.error e, w')
          | some (.ok inst, w') =>
            some (.ok inst,
                  { w' with heap := heapSet w'.heap pidx { p with cache := some inst } })

/-- Running the wrapped callable: a plain callable constructs a fresh
instance; an autowire closure first resolves each injectable
constructor parameter (container.py:125-129). -/
def runFactory : Nat → FactoryFn → World → Option ((Except IoCErr Nat) × World)
  | 0, _, _ => none
  | _ + 1, .plain _, w => some (.ok w.nextInst, { w with nextInst := w.nextInst + 1 })
  | fuel + 1, .autowire _ deps, w =>
    match resolveDeps fuel deps w with
    | none => none
    | some (.error e, w') => some (.error e, w')
    | some (.ok _, w') => some (.ok w'.nextInst, { w' with nextInst := w'.nextInst + 1 })

/-- The kwargs comprehension of the autowire closure: resolve the
dependencies left to right; the first exception propagates. -/
def resolveDeps : Nat → List (String × Key) → World →
    Option ((Except IoCErr (List (String × Nat))) × World)
  | 0, _, _ => none
  | _ + 1, [], w => some (.ok [], w)
  | fuel + 1, (n, k) :: rest, w =>
    match resolve fuel k w with
    | none => none
    | some (.error e, w') => some (.error e, w')
    | some (.ok i, w') =>
      match resolveDeps fuel rest w' with
      | none => none
      | some (.error e, w'') => some (.error e, w'')
      | some (.ok tl, w'') => some (.ok ((n, i) :: tl), w'')

end

/-- `Container.alias_provider` (container.py:47-55): fail with
`ProviderNotFoundError(target, available)` when the target key is
unregistered, otherwise bind the alias key to the target's provider
object. -/
def aliasProvider (aliasKey target : Key) (w : World) : Except IoCErr World :=
  match assocFind w.container target with
  | none => .error (.providerNotFound target (availableKeys w))
  | some pidx => .ok { w with container := assocUpdate w.container aliasKey pidx }

/-- One annotated, non-`self`/`cls` constructor parameter as seen by
`registry_provider`: its name, and its evaluated type hint when that
hint is a class (`isinstance(dep_type, type)`), else `none`. -/
structure CtorParam where
  name : String
  hint : Option Key
deriving DecidableEq, Repr

/-- What `registry_provider` is given: a plain callable, or a class
together with the outcome of inspecting its constructor
(`inspect.signature` + `get_type_hints`; `none` means that inspection
raised an exception, `some ps` that it returned the annotated
non-`self` parameters `ps`). -/
inductive Registrable where
  | fn (key : Key)
  | cls (key : Key) (intros : Option (List CtorParam))
deriving DecidableEq, Repr

/-- The dictionary key the registrable is registered under. -/
def Registrable.key : Registrable → Key
  | .fn k => k
  | .cls k _ => k

/-- `Container.registry_provider` (container.py:79-138).  Emits the
duplicate-registration `UserWarning` (the returned `Bool`) when the key
is already present, then installs a fresh provider: an autowire closure
when the registrable is a class whose introspection succeeds and at
least one annotated constructor parameter has a registered class as its
hint; otherwise — including when introspection raises — the plain
callable.  Registration itself never fails. -/
def registryProvider (r : Registrable) (scope : Scope) (w : World) : World × Bool :=
  let warned := (assocFind w.container r.key).isSome
  let prov : Provider :=
    match r with
    | .fn k => ⟨scope, .plain k, none⟩
    | .cls k intros =>
      match intros with
      | none => ⟨scope, .plain k, none⟩
      | some ps =>
        if ps.isEmpty then ⟨scope, .plain k, none⟩
        else
          let inj := ps.filterMap fun p =>
            p.hint.bind fun d =>
              if (assocFind w.container d).isSome then some (p.name, d) else none
          if inj.isEmpty then ⟨scope, .plain k, none⟩
          else ⟨scope, .autowire k inj, none⟩
  ({ w with container := assocUpdate w.container r.key w.heap.length,
            heap := w.heap ++ [prov] }, warned)

/-- A parameter's type annotation as classified by `inject` /
`_extract_concrete_type` (injection.py:15-28, 95-112): a bare class
(`plain`, also covering a `Union` without `None`, whose first class
argument is taken), a `Union` containing `None` with a class argument
(`optional`), or anything from which no concrete class can be
extracted (`unsupported`). -/
inductive Annotation where
  | plain (k : Key)
  | optional (k : Key)
  | unsupported
deriving DecidableEq, Repr

/-- The `inspect.Parameter` kinds the model covers (variadic `*args` /
`**kwargs` parameters are outside the model). -/
inductive ParamKind where
  | posOnly
  | posOrKw
  | kwOnly
deriving DecidableEq, Repr

/-- Argument values.  `inst i` is the object with identity `i` produced
by a provider; `none` is Python's `None`. -/
inductive Value where
  | none
  | inst (i : Nat)
  | int (n : Int)
  | str (s : String)
deriving DecidableEq, Repr

/-- One parameter of the wrapped callable's `inspect.signature`. -/
structure Param where
  name : String
  kind : ParamKind
  hint : Option Annotation
  default : Option Value
deriving DecidableEq, Repr

/-- The `deps_to_inject` table computed once by `inject`
(injection.py:88-112): per parameter name, `some key` for a parameter
whose concrete annotated class is registered (Required), `none` for an
`Optional` one whose class is unregistered (resolved to `None` at call
time), and no entry for everything else (PassThrough). -/
def depsToInject (sig : List Param) (w : World) : List (String × Option Key) :=
  sig.filterMap fun p =>
    if p.name = "self" ∨ p.name = "cls" then none
    else
      match p.hint with
      | Option.none => none
      | some .unsupported => none
      | some (.plain k) =>
        if inProvider k w then some (p.name, some k) else none
      | some (.optional k) =>
        if inProvider k w then some (p.name, some k) else some (p.name, none)

/-- Whether a parameter name has an entry in `deps_to_inject`. -/
def isDepName (deps : List (String × Option Key)) (n : String) : Bool :=
  deps.any fun d => d.1 = n

/-- The signature-rewriting loop of `inject` (injection.py:114-134):
once the first injectable parameter has been seen, every later
non-injectable `POSITIONAL_OR_KEYWORD` parameter is replaced by a
`KEYWORD_ONLY` one; all other parameters are kept as they are. -/
def rewriteGo (deps : List (String × Option Key)) : Bool → List Param → List Param
  | _, [] => []
  | found, p :: rest =>
    if p.name = "self" ∨ p.name = "cls" then p :: rewriteGo deps found rest
    else
      let found' := found || isDepName deps p.name
      if found' && !isDepName deps p.name && (p.kind == .posOrKw) then
        { p with kind := .kwOnly } :: rewriteGo deps found' rest
      else
        p :: rewriteGo deps found' rest

/-- The `__signature__` installed on the wrapper by `inject`. -/
def injectSignature (sig : List Param) (w : World) : List Param :=
  rewriteGo (depsToInject sig w) false sig

/-- `TypeError`s raised when binding arguments against a signature. -/
inductive BindErr where
  | tooManyPositional
  | unexpectedKeyword (n : String)
  | multipleValues (n : String)
  | missingArgument (n : String)
deriving DecidableEq, Repr

/-- Matching the positional arguments of a call against the leading
positional parameters, as `Signature.bind` does. -/
def bindPositional : List Param → List Value → Except BindErr (List (String × Value))
  | _, [] => .ok []
  | [], _ :: _ => .error .tooManyPositional
  | p :: ps, v :: vs =>
    match p.kind with
    | .kwOnly => .error .tooManyPositional
    | _ =>
      match bindPositional ps vs with
      | .error e => .error e
      | .ok rest => .ok ((p.name, v) :: rest)

/-- Matching the keyword arguments: each must name a non-positional-only
parameter not already bound. -/
def bindKw (sig : List Param) : List (String × Value) → List (String × Value) →
    Except BindErr (List (String × Value))
  | acc, [] => .ok acc
  | acc, (n, v) :: rest =>
    match sig.find? (fun p => p.name = n) with
    | Option.none => .error (.unexpectedKeyword n)
    | some p =>
      if p.kind = .posOnly then .error (.unexpectedKeyword n)
      else if (acc.find? (fun q => q.1 = n)).isSome then .error (.multipleValues n)
      else bindKw sig (acc ++ [(n, v)]) rest

/-- `sig.bind_partial(*args, **kwargs)` (injection.py:39): bind what is
supplied, requiring nothing. -/
def bindPartialFn (sig : List Param) (args : List Value) (kwargs : List (String × Value)) :
    Except BindErr (List (String × Value)) :=
  match bindPositional sig args with
  | .error e => .error e
  | .ok bound => bindKw sig bound kwargs

/-- `bound_args.apply_defaults()`: fill in the default of every
parameter that is still unbound and has one. -/
def applyDefaults (sig : List Param) (bound : List (String × Value)) :
    List (String × Value) :=
  bound ++ sig.filterMap fun p =>
    if (bound.find? (fun q => q.1 = p.name)).isSome then none
    else p.default.map fun v => (p.name, v)

/-- The actual call `func(*args, **kwargs)` performed by the wrapper: a
full bind, failing on a missing required argument; the result is the
assignment of values to parameters that `func` observes, in parameter
order. -/
def bindCall (sig : List Param) (args : List Value) (kwargs : List (String × Value)) :
    Except BindErr (List (String × Value)) :=
  match bindPartialFn sig args kwargs with
  | .error e => .error e
  | .ok bound =>
    let bound := applyDefaults sig bound
    match sig.find? (fun p => (bound.find? (fun q => q.1 = p.name)).isNone) with
    | some p => .error (.missingArgument p.name)
    | Option.none =>
      .ok (sig.filterMap fun p => (bound.find? (fun q => q.1 = p.name)).map fun q => (p.name, q.2))

/-- Errors escaping a wrapped call. -/
inductive CallErr where
  | typeErr (e : BindErr)
  | depInjection (key : Key) (param : String) (fname : String) (cause : IoCErr)
deriving DecidableEq, Repr

/-- The injection loop of `_inject_dependencies` (injection.py:44-64):
for every entry of `deps_to_inject` whose parameter was not supplied by
the caller, inject `None` (OptionalAbsent) or resolve the key, wrapping
any resolution error as
`DependencyInjectionError(key, paramName, funcName, cause)`. -/
def injectLoop (fuel : Nat) (fname : String) (bound : List (String × Value)) (w : World) :
    List (String × Option Key) → Option ((Except CallErr (List (String × Value))) × World)
  | [] => some (.ok [], w)
  | (n, dk) :: rest =>
    if (bound.find? (fun q => q.1 = n)).isSome then injectLoop fuel fname bound w rest
    else
      match dk with
      | Option.none =>
        match injectLoop fuel fname bound w rest with
        | Option.none => none
        | some (.error e, w') => some (.error e, w')
        | some (.ok tl, w') => some (.ok ((n, Value.none) :: tl), w')
      | some k =>
        match resolve fuel k w with
        | Option.none => none
        | some (.error e, w') => some (.error (.depInjection k n fname e), w')
        | some (.ok i, w') =>
          match injectLoop fuel fname bound w' rest with
          | Option.none => none
          | some (.error e, w'') => some (.error e, w'')
          | some (.ok tl, w'') => some (.ok ((n, Value.inst i) :: tl), w'')

/-- `_inject_dependencies` (injection.py:31-66): bind the caller's
arguments against the original signature (a `TypeError` here
propagates unwrapped), apply defaults, then run the injection loop. -/
def injectDeps (fuel : Nat) (sig : List Param) (deps : List (String × Option Key))
    (args : List Value) (kwargs : List (String × Value)) (fname : String) (w : World) :
    Option ((Except CallErr (List (String × Value))) × World) :=
  match bindPartialFn sig args kwargs with
  | .error e => some (.error (.typeErr e), w)
  | .ok bound => injectLoop fuel fname (applyDefaults sig bound) w deps

/-- `dict.update`: merge the injected values into the keyword
arguments. -/
def kwargsUpdate (kwargs injected : List (String × Value)) : List (String × Value) :=
  injected.foldl (fun acc nv =>
    if (acc.find? (fun q => q.1 = nv.1)).isSome
    then acc.map (fun q => if q.1 = nv.1 then nv else q)
    else acc ++ [nv]) kwargs

/-- `sync_wrapper` (injection.py:156-162): compute the injected values,
merge them into the keyword arguments and perform the underlying call.
The result is the argument assignment the wrapped function observes. -/
def syncWrapperCall (fuel : Nat) (sig : List Param) (deps : List (String × Option Key))
    (fname : String) (args : List Value) (kwargs : List (String × Value)) (w : World) :
    Option ((Except CallErr (List (String × Value))) × World) :=
  match injectDeps fuel sig deps args kwargs fname w with
  | Option.none => none
  | some (.error e, w') => some (.error e, w')
  | some (.ok injected, w') =>
    match bindCall sig args (kwargsUpdate kwargs injected) with
    | .error e => some (.error (.typeErr e), w')
    | .ok callBound => some (.ok callBound, w')

/-- The immutable part of a provider object: everything except the
memoization slot. -/
def provShape (p : Provider) : Scope × FactoryFn := (p.scope, p.factory)

/-- What a resolution call chain never changes: the registry dictionary
and the scope/factory of every provider object (only caches are
written). -/
def pres (w w' : World) : Prop :=
  w'.container = w.container ∧
  ∀ j, (heapGet w'.heap j).map provShape = (heapGet w.heap j).map provShape

/-- The contents of the `ContextVar` after a balanced pop back down to
stack contents `s`: discarded when empty. -/
def stackAfter (s : List Key) : Option (List Key) :=
  if s = [] then none else some s

/-- Stack discipline of a top-level or nested `resolve` frame, by
result: on success or `ProviderNotFoundError` the frame's push is
popped again; on `CircularDependencyError` the frame's own key stays
behind, because the detecting frame appended the repeated key outside
its `try` (container.py:66-68). -/
def ResStack (w w' : World) (key : Key) (r : Except IoCErr Nat) : Prop :=
  match r with
  | .ok _ => w'.stack = stackAfter (w.stack.getD [])
  | .error (.providerNotFound _ _) => w'.stack = stackAfter (w.stack.getD [])
  | .error (.circularDependency _) => w'.stack = some (w.stack.getD [] ++ [key])

/-- Stack discipline of provider/factory execution (always entered with
a nonempty stack): balanced on success and `ProviderNotFoundError`, one
stray element left by `CircularDependencyError`. -/
def SubStack {α : Type} (w w' : World) (r : Except IoCErr α) : Prop :=
  ∀ s, w.stack = some s → s ≠ [] →
    match r with
    | .ok _ => w'.stack = some s
    | .error (.providerNotFound _ _) => w'.stack = some s
    | .error (.circularDependency _) => ∃ k, w'.stack = some (s ++ [k])

/-- A successful `resolve` of a memoizing (non-Factory) provider leaves
that provider's cache holding exactly the returned instance. -/
def ResCache (w w' : World) (key : Key) (r : Except IoCErr Nat) : Prop :=
  ∀ i pidx p, r = .ok i → assocFind w.container key = some pidx →
    heapGet w.heap pidx = some p → p.scope ≠ .factory →
    ∃ p', heapGet w'.heap pidx = some p' ∧ p'.cache = some i

/-- Same cache fact at the level of one provider invocation. -/
def CallCache (w w' : World) (pidx : Nat) (r : Except IoCErr Nat) : Prop :=
  ∀ i p, r = .ok i → heapGet w.heap pidx = some p → p.scope ≠ .factory →
    ∃ p', heapGet w'.heap pidx = some p' ∧ p'.cache = some i

/-- Whether a non-`self` parameter of the original signature is in
`deps_to_inject` — the condition under which the rewriting loop has
"seen the first injectable parameter". -/
def foundIn (deps : List (String × Option Key)) (pre : List Param) : Bool :=
  pre.any fun q => (decide ¬(q.name = "self" ∨ q.name = "cls")) && isDepName deps q.name

/-! ### Concrete scenarios (registration sequences reproducing the
spec's examples; used as failing inputs and witnesses) -/

/-- The empty registry. -/
def w0 : World := ⟨[], [], none, 0⟩

/-- Demo key: class `A`. -/
def kA : Key := 0

/-- Demo key: class `B`. -/
def kB : Key := 1

/-- A registry in which `A` and `B` genuinely resolve each other:
register `B` (plain — `A` is not yet registered, so nothing is
injectable), register `A` (autowired to resolve `B`), then re-register
`B` (now autowired to resolve `A`, overwriting the plain provider). -/
def wAB : World :=
  let w1 := (registryProvider (.cls kB (some [⟨"a", some kA⟩])) .singleton w0).1
  let w2 := (registryProvider (.cls kA (some [⟨"b", some kB⟩])) .singleton w1).1
  (registryProvider (.cls kB (some [⟨"a", some kA⟩])) .singleton w2).1

/-- A registry in which `A`'s provider resolves `A` itself: register
`A` plain, then re-register it with a self-typed constructor
parameter. -/
def wSelfCyc : World :=
  let w1 := (registryProvider (.cls kA (some [⟨"a", some kA⟩])) .singleton w0).1
  (registryProvider (.cls kA (some [⟨"a", some kA⟩])) .singleton w1).1

/-- `wSelfCyc` after the failed resolve of `A`: unchanged except for
the stale `[A]` left on the resolution stack. -/
def wSelfCycAfter : World :=
  ⟨[(kA, 1)],
   [⟨.singleton, .plain kA, none⟩, ⟨.singleton, .autowire kA [("a", kA)], none⟩],
   some [kA], 0⟩

/-- A single registered singleton `A`. -/
def wS : World := (registryProvider (.fn kA) .singleton w0).1

/-- `wS` after one successful resolve: instance `0` allocated and
cached. -/
def wS1 : World := ⟨[(kA, 0)], [⟨.singleton, .plain kA, some 0⟩], none, 1⟩

/-- `wS1` with `A` registered again (duplicate registration): the new,
uncached provider overwrites the old one. -/
def wRe : World := (registryProvider (.fn kA) .singleton wS1).1

/-- `wS` with `B` aliased to `A`'s provider. -/
def wAl : World :=
  match aliasProvider kB kA wS with
  | .ok w => w
  | .error _ => w0

/-- `wAl` after the alias has been resolved once (equivalently: `wS1`
with `B` aliased to `A`'s provider object) — the shared provider holds
the cached instance `0`. -/
def wAl1 : World := ⟨[(kA, 0), (kB, 0)], [⟨.singleton, .plain kA, some 0⟩], none, 1⟩

/-- Alias-then-overwrite scenario: `A` registered and resolved once
(instance `0` cached), `B` aliased to `A`'s provider object, then `A`
re-registered with a fresh provider. -/
def wC9 : World :=
  match aliasProvider kB kA wS1 with
  | .ok w3 => (registryProvider (.fn kA) .singleton w3).1
  | .error _ => w0

/-- Key of a registered dependency class `D`. -/
def kD : Key := 0

/-- Key standing for the builtin class `int` (a type, never
registered). -/
def kInt : Key := 5

/-- Registry with only `D` registered as a singleton. -/
def wD : World := (registryProvider (.fn kD) .singleton w0).1

/-- `wD` after `D` has been resolved once (cache populated). -/
def wD1 : World := ⟨[(kD, 0)], [⟨.singleton, .plain kD, some 0⟩], none, 1⟩

/-- The signature of `f(dep: D, x: int)`. -/
def sig4 : List Param :=
  [⟨"dep", .posOrKw, some (.plain kD), Option.none⟩,
   ⟨"x", .posOrKw, some (.plain kInt), Option.none⟩]

/-- The signature of `f(dep: D, x: int, /)` — both parameters
positional-only. -/
def sigPO : List Param :=
  [⟨"dep", .posOnly, some (.plain kD), Option.none⟩,
   ⟨"x", .posOnly, some (.plain kInt), Option.none⟩]

/-- The signature of `f(dep: A)`, used with `wSelfCyc` for the
failure-wrapping claim. -/
def sig6 : List Param := [⟨"dep", .posOrKw, some (.plain kA), Option.none⟩]

/-! ### Basic lemmas about the dictionary and the provider heap -/

theorem assocFind_update (l : List (Key × Nat)) (k k' : Key) (v : Nat) :
    assocFind (assocUpdate l k v) k' = if k' = k then some v else assocFind l k' := by
  induction l with
  | nil =>
    simp only [assocUpdate, assocFind]
    by_cases h : k = k'
    · subst h; simp
    · rw [if_neg h, if_neg fun hh => h hh.symm]
  | cons hd tl ih =>
    obtain ⟨k₀, v₀⟩ := hd
    simp only [assocUpdate]
    by_cases h0 : k₀ = k
    · subst h0
      simp only [if_pos rfl, assocFind]
      by_cases h : k₀ = k'
      · subst h; simp
      · simp only [if_neg h, if_neg (show ¬k' = k₀ from fun hh => h hh.symm)]
    · rw [if_neg h0]
      simp only [assocFind]
      by_cases h1 : k₀ = k'
      · subst h1
        simp [if_neg h0]
      · simp only [if_neg h1, ih]

theorem heapGet_lt (h : List Provider) (i : Nat) (p : Provider)
    (hg : heapGet h i = some p) : i < h.length := by
  induction h generalizing i with
  | nil => simp [heapGet] at hg
  | cons q rest ih =>
    cases i with
    | zero => simp
    | succ j =>
      simp [heapGet] at hg
      simpa using Nat.succ_lt_succ (ih j hg)

theorem heapGet_set_self (h : List Provider) (i : Nat) (p q : Provider)
    (hg : heapGet h i = some q) : heapGet (heapSet h i p) i = some p := by
  induction h generalizing i with
  | nil => simp [heapGet] at hg
  | cons r rest ih =>
    cases i with
    | zero => simp [heapGet, heapSet]
    | succ j =>
      simp [heapGet, heapSet] at hg ⊢
      exact ih j hg

theorem heapGet_set_other (h : List Provider) (i j : Nat) (p : Provider)
    (hne : i ≠ j) : heapGet (heapSet h i p) j = heapGet h j := by
  induction h generalizing i j with
  | nil => simp [heapSet]
  | cons r rest ih =>
    cases i with
    | zero =>
      cases j with
      | zero => exact absurd rfl hne
      | succ j' => simp [heapGet, heapSet]
    | succ i' =>
      cases j with
      | zero => simp [heapGet, heapSet]
      | succ j' =>
        simp [heapGet, heapSet]
        exact ih i' j' (fun hh => hne (by simp [hh]))

/-! ### Preservation and stack-discipline invariants of `resolve` -/

theorem pres_refl (w : World) : pres w w := ⟨rfl, fun _ => rfl⟩

theorem pres_trans {w₁ w₂ w₃ : World} (h₁ : pres w₁ w₂) (h₂ : pres w₂ w₃) :
    pres w₁ w₃ :=
  ⟨h₂.1.trans h₁.1, fun j => (h₂.2 j).trans (h₁.2 j)⟩

theorem pres_stack (w : World) (st : Option (List Key)) :
    pres w { w with stack := st } := ⟨rfl, fun _ => rfl⟩

theorem pres_of_eq {w w' : World} (h1 : w'.container = w.container)
    (h2 : w'.heap = w.heap) : pres w w' :=
  ⟨h1, by rw [h2]; exact fun _ => rfl⟩

theorem dropLast_app_single (s : List Key) (k : Key) : (s ++ [k]).dropLast = s := by
  simp

theorem app_single_ne_nil (s : List Key) (k : Key) : s ++ [k] ≠ [] := by
  simp

theorem finallyPop_eq (r : Except IoCErr Nat) (w : World) :
    finallyPop r w =
      (r, { w with stack := stackAfter (w.stack.getD []).dropLast }) := rfl

theorem stackAfter_app (s : List Key) (k : Key) :
    stackAfter (s ++ [k]) = some (s ++ [k]) := by
  simp [stackAfter, app_single_ne_nil]

theorem finallyPop_stack (r : Except IoCErr Nat) (w : World) (s : List Key) (k : Key)
    (hs : w.stack = some (s ++ [k])) :
    finallyPop r w = (r, { w with stack := stackAfter s }) := by
  rw [finallyPop_eq, hs]
  simp [dropLast_app_single]

/-- A propagating exception leaves the same stack no matter the value
type of the frame it passes through. -/
theorem SubStack_error_cast {α β : Type} {w w' : World} {e : IoCErr}
    (h : SubStack w w' (Except.error e : Except IoCErr α)) :
    SubStack w w' (Except.error e : Except IoCErr β) := by
  intro s hs hne
  have h' := h s hs hne
  cases e with
  | providerNotFound k a => exact h'
  | circularDependency c => exact h'

/-- The simultaneous invariant of the mutually recursive resolution
functions, by induction on fuel: a resolution chain never changes the
registry dictionary or any provider's scope/factory, it observes the
`finally`-based stack discipline (`ResStack`/`SubStack`), and a
successful resolution through a memoizing provider leaves the instance
in that provider's cache. -/
theorem resolve_master (fuel : Nat) :
    (∀ key w r w', resolve fuel key w = some (r, w') →
      pres w w' ∧ ResStack w w' key r ∧ ResCache w w' key r) ∧
    (∀ pidx w r w', callProvider fuel pidx w = some (r, w') →
      pres w w' ∧ SubStack w w' r ∧ CallCache w w' pidx r) ∧
    (∀ f w r w', runFactory fuel f w = some (r, w') →
      pres w w' ∧ SubStack w w' r) ∧
    (∀ ds w r w', resolveDeps fuel ds w = some (r, w') →
      pres w w' ∧ SubStack w w' r) := by
  induction fuel with
  | zero =>
    refine ⟨?_, ?_, ?_, ?_⟩ <;> intro a w r w' h <;>
      simp [resolve, callProvider, runFactory, resolveDeps] at h
  | succ fuel ih =>
    obtain ⟨ihR, ihC, ihF, ihD⟩ := ih
    refine ⟨?_, ?_, ?_, ?_⟩
    · -- resolve
      intro key w r w' h
      simp only [resolve] at h
      by_cases hmem : key ∈ w.stack.getD []
      · rw [if_pos hmem] at h
        injection h with h
        rw [Prod.mk.injEq] at h
        obtain ⟨hr, hw⟩ := h
        subst hr; subst hw
        refine ⟨pres_stack w _, ?_, ?_⟩
        · simp [ResStack]
        · intro i pidx p hok
          exact absurd hok (by simp)
      · rw [if_neg hmem] at h
        split at h
        next hfind =>
          rw [finallyPop_stack _ _ _ _ rfl] at h
          injection h with h
          rw [Prod.mk.injEq] at h
          obtain ⟨hr, hw⟩ := h
          subst hr; subst hw
          refine ⟨pres_stack w _, ?_, ?_⟩
          · simp only [ResStack]
          · intro i pidx p hok
            exact absurd hok (by simp)
        next pidx hfind =>
          split at h
          next hcp => simp at h
          next r₂ w₂ hcp =>
            obtain ⟨hpres, hsub, hcache⟩ := ihC pidx _ r₂ w₂ hcp
            have hsub' := hsub (w.stack.getD [] ++ [key]) rfl (app_single_ne_nil _ _)
            have hpres' : pres w w₂ :=
              pres_trans (pres_stack w (some (w.stack.getD [] ++ [key]))) hpres
            rcases r₂ with e | i
            · rcases e with ⟨k', a'⟩ | c
              · -- nested ProviderNotFound
                simp only [SubStack] at hsub'
                rw [finallyPop_stack _ _ _ _ hsub'] at h
                injection h with h
                rw [Prod.mk.injEq] at h
                obtain ⟨hr, hw⟩ := h
                subst hr; subst hw
                refine ⟨pres_trans hpres' (pres_stack w₂ _), ?_, ?_⟩
                · simp only [ResStack]
                · intro i pidx' p hok
                  exact absurd hok (by simp)
              · -- nested CircularDependency
                obtain ⟨kx, hkx⟩ := hsub'
                rw [finallyPop_stack _ _ (w.stack.getD [] ++ [key]) kx hkx] at h
                injection h with h
                rw [Prod.mk.injEq] at h
                obtain ⟨hr, hw⟩ := h
                subst hr; subst hw
                refine ⟨pres_trans hpres' (pres_stack w₂ _), ?_, ?_⟩
                · simp only [ResStack]
                  exact stackAfter_app _ _
                · intro i pidx' p hok
                  exact absurd hok (by simp)
            · -- nested success
              simp only [SubStack] at hsub'
              rw [finallyPop_stack _ _ _ _ hsub'] at h
              injection h with h
              rw [Prod.mk.injEq] at h
              obtain ⟨hr, hw⟩ := h
              subst hr; subst hw
              refine ⟨pres_trans hpres' (pres_stack w₂ _), ?_, ?_⟩
              · simp only [ResStack]
              · intro j pidx' p hok hfind' hheap hscope
                have hfind₀ : assocFind w.container key = some pidx := hfind
                rw [hfind₀] at hfind'
                injection hfind' with hpidx
                subst hpidx
                injection hok with hok
                subst hok
                obtain ⟨p', hp', hc'⟩ := hcache i p rfl hheap hscope
                exact ⟨p', hp', hc'⟩
    · -- callProvider
      intro pidx w r w' h
      simp only [callProvider] at h
      split at h
      next hg => simp at h
      next p hg =>
        split at h
        next hsc =>
          -- Factory scope: plain delegation, never caches
          obtain ⟨hpres, hsub⟩ := ihF p.factory w r w' h
          refine ⟨hpres, hsub, ?_⟩
          intro i p0 hok hp0 hscope0
          rw [hg] at hp0
          injection hp0 with hp0
          subst hp0
          exact absurd hsc hscope0
        next x hnf =>
          -- memoizing scopes (Singleton / Resource)
          split at h
          next inst hca =>
            -- cache hit
            injection h with h
            rw [Prod.mk.injEq] at h
            obtain ⟨hr, hw⟩ := h
            subst hr; subst hw
            refine ⟨pres_refl w, fun s hs hne => hs, ?_⟩
            intro i p0 hok hp0 hscope0
            injection hok with hok
            rw [hg] at hp0
            injection hp0 with hp0
            subst hp0
            exact ⟨p, hg, by rw [hca, hok]⟩
          next hca =>
            -- cache miss: run the factory, then memoize
            split at h
            next hrf => simp at h
            next e wf hrf =>
              injection h with h
              rw [Prod.mk.injEq] at h
              obtain ⟨hr, hw⟩ := h
              subst hr; subst hw
              obtain ⟨hpres, hsub⟩ := ihF p.factory w _ wf hrf
              refine ⟨hpres, hsub, ?_⟩
              intro i p0 hok
              exact absurd hok (by simp)
            next inst wf hrf =>
              injection h with h
              rw [Prod.mk.injEq] at h
              obtain ⟨hr, hw⟩ := h
              subst hr
              obtain ⟨hpres, hsub⟩ := ihF p.factory w _ wf hrf
              have hq' : ∃ q, heapGet wf.heap pidx = some q ∧ provShape q = provShape p := by
                have hsh := hpres.2 pidx
                rw [hg] at hsh
                rcases hq : heapGet wf.heap pidx with _ | q
                · rw [hq] at hsh; simp at hsh
                · rw [hq] at hsh
                  exact ⟨q, rfl, Option.some.inj hsh⟩
              obtain ⟨q, hq, hqs⟩ := hq'
              subst hw
              refine ⟨?_, ?_, ?_⟩
              · refine pres_trans hpres ⟨rfl, fun j => ?_⟩
                by_cases hj : pidx = j
                · subst hj
                  rw [show heapGet
                        ({wf with heap := heapSet wf.heap pidx { p with cache := some inst }} : World).heap pidx =
                        some { p with cache := some inst } from
                        heapGet_set_self wf.heap pidx _ q hq, hq]
                  exact congrArg some hqs.symm
                · exact congrArg (Option.map provShape) (heapGet_set_other wf.heap pidx j _ hj)
              · intro s hs hne
                exact hsub s hs hne
              · intro i p0 hok hp0 hscope0
                injection hok with hok
                subst hok
                exact ⟨{ p with cache := some inst },
                       heapGet_set_self wf.heap pidx _ q hq, rfl⟩
    · -- runFactory
      intro f w r w' h
      cases f with
      | plain t =>
        simp only [runFactory] at h
        injection h with h
        rw [Prod.mk.injEq] at h
        obtain ⟨hr, hw⟩ := h
        subst hr; subst hw
        exact ⟨pres_of_eq rfl rfl, fun s hs hne => hs⟩
      | autowire t ds =>
        simp only [runFactory] at h
        split at h
        next hrd => simp at h
        next e wd hrd =>
          injection h with h
          rw [Prod.mk.injEq] at h
          obtain ⟨hr, hw⟩ := h
          subst hr; subst hw
          obtain ⟨hp1, hs1⟩ := ihD ds w _ _ hrd
          exact ⟨hp1, SubStack_error_cast hs1⟩
        next tl wd hrd =>
          injection h with h
          rw [Prod.mk.injEq] at h
          obtain ⟨hr, hw⟩ := h
          subst hr; subst hw
          obtain ⟨hpres, hsub⟩ := ihD ds w _ wd hrd
          exact ⟨pres_trans hpres (pres_of_eq rfl rfl), fun s hs hne => hsub s hs hne⟩
    · -- resolveDeps
      intro ds w r w' h
      cases ds with
      | nil =>
        simp only [resolveDeps] at h
        injection h with h
        rw [Prod.mk.injEq] at h
        obtain ⟨hr, hw⟩ := h
        subst hr; subst hw
        exact ⟨pres_refl w, fun s hs hne => hs⟩
      | cons d rest =>
        obtain ⟨n, k⟩ := d
        simp only [resolveDeps] at h
        split at h
        next hr1 => simp at h
        next e w₁ hr1 =>
          injection h with h
          rw [Prod.mk.injEq] at h
          obtain ⟨hre, hw⟩ := h
          subst hre; subst hw
          obtain ⟨hpres₁, hstack₁, _⟩ := ihR k w _ _ hr1
          refine ⟨hpres₁, ?_⟩
          intro s hs hne
          rcases e with ⟨k', a'⟩ | c
          · simp only [ResStack, stackAfter] at hstack₁
            rw [hs] at hstack₁
            simp only [Option.getD] at hstack₁
            rw [if_neg hne] at hstack₁
            exact hstack₁
          · simp only [ResStack] at hstack₁
            rw [hs] at hstack₁
            exact ⟨k, hstack₁⟩
        next i w₁ hr1 =>
          obtain ⟨hpres₁, hstack₁, _⟩ := ihR k w _ w₁ hr1
          have hstx : ∀ s, w.stack = some s → s ≠ [] → w₁.stack = some s := by
            intro s hs hne
            simp only [ResStack, stackAfter] at hstack₁
            rw [hs] at hstack₁
            simp only [Option.getD] at hstack₁
            rw [if_neg hne] at hstack₁
            exact hstack₁
          split at h
          next hr2 => simp at h
          next e w₂ hr2 =>
            injection h with h
            rw [Prod.mk.injEq] at h
            obtain ⟨hre, hw⟩ := h
            subst hre; subst hw
            obtain ⟨hpres₂, hsub₂⟩ := ihD rest w₁ _ _ hr2
            refine ⟨pres_trans hpres₁ hpres₂, ?_⟩
            intro s hs hne
            have hw₁ := hstx s hs hne
            rcases e with ⟨k', a'⟩ | c
            · exact hsub₂ s hw₁ hne
            · exact hsub₂ s hw₁ hne
          next tl w₂ hr2 =>
            injection h with h
            rw [Prod.mk.injEq] at h
            obtain ⟨hre, hw⟩ := h
            subst hre; subst hw
            obtain ⟨hpres₂, hsub₂⟩ := ihD rest w₁ _ w₂ hr2
            refine ⟨pres_trans hpres₁ hpres₂, ?_⟩
            intro s hs hne
            exact hsub₂ s (hstx s hs hne) hne

/-- A top-level `resolve` of a key bound to a Singleton provider whose
cache is already populated returns the cached instance and changes
nothing. -/
theorem resolve_cached (f : Nat) (key : Key) (w : World) (pidx : Nat) (p : Provider) (i : Nat)
    (hs : w.stack = none) (hc : assocFind w.container key = some pidx)
    (hp : heapGet w.heap pidx = some p) (hsc : p.scope = .singleton)
    (hcache : p.cache = some i) :
    resolve (f + 2) key w = some (.ok i, w) := by
  have hwid : ({ w with stack := none } : World) = w := by rw [← hs]
  simp only [resolve, callProvider, hs, hc, hp, hsc, hcache, finallyPop]
  simp [hwid]

theorem assocUpdate_mem_keys (l : List (Key × Nat)) (k : Key) (v : Nat) (x : Key) :
    x ∈ (assocUpdate l k v).map Prod.fst ↔ x ∈ l.map Prod.fst ∨ x = k := by
  induction l with
  | nil => simp [assocUpdate, eq_comm]
  | cons hd tl ih =>
    obtain ⟨k₀, v₀⟩ := hd
    by_cases h0 : k₀ = k
    · subst h0
      simp [assocUpdate]
      tauto
    · simp [assocUpdate, h0, ih]
      tauto

theorem assocUpdate_keys_nodup (l : List (Key × Nat)) (k : Key) (v : Nat)
    (h : (l.map Prod.fst).Nodup) : ((assocUpdate l k v).map Prod.fst).Nodup := by
  induction l with
  | nil => simp [assocUpdate]
  | cons hd tl ih =>
    obtain ⟨k₀, v₀⟩ := hd
    simp only [List.map_cons, List.nodup_cons] at h
    by_cases h0 : k₀ = k
    · subst h0
      have hup : assocUpdate ((k₀, v₀) :: tl) k₀ v = (k₀, v) :: tl := by
        simp [assocUpdate]
      rw [hup, List.map_cons, List.nodup_cons]
      exact ⟨h.1, h.2⟩
    · simp only [assocUpdate, if_neg h0, List.map_cons, List.nodup_cons]
      refine ⟨?_, ih h.2⟩
      intro hmem
      rw [assocUpdate_mem_keys] at hmem
      rcases hmem with hm | he
      · exact h.1 hm
      · exact h0 he

theorem assocUpdate_count_one (l : List (Key × Nat)) (k : Key) (v : Nat)
    (h : (l.map Prod.fst).Nodup) : ((assocUpdate l k v).map Prod.fst).count k = 1 := by
  induction l with
  | nil => simp [assocUpdate]
  | cons hd tl ih =>
    obtain ⟨k₀, v₀⟩ := hd
    simp only [List.map_cons, List.nodup_cons] at h
    by_cases h0 : k₀ = k
    · subst h0
      have hup : assocUpdate ((k₀, v₀) :: tl) k₀ v = (k₀, v) :: tl := by
        simp [assocUpdate]
      have hz : (tl.map Prod.fst).count k₀ = 0 := by
        rw [List.count_eq_zero]
        exact h.1
      rw [hup, List.map_cons, List.count_cons_self, hz]
    · simp only [assocUpdate, if_neg h0, List.map_cons]
      rw [List.count_cons_of_ne (fun he => h0 he.symm), ih h.2]

theorem heapGet_append_len (h : List Provider) (p : Provider) :
    heapGet (h ++ [p]) h.length = some p := by
  induction h with
  | nil => rfl
  | cons q rest ih => simpa [heapGet] using ih

/-! ### Structure of the signature-rewriting loop -/

theorem rewriteGo_append (deps : List (String × Option Key)) (b : Bool)
    (pre rest : List Param) :
    rewriteGo deps b (pre ++ rest) =
      rewriteGo deps b pre ++ rewriteGo deps (b || foundIn deps pre) rest := by
  induction pre generalizing b with
  | nil => simp [rewriteGo, foundIn]
  | cons q pre ih =>
    by_cases hq : q.name = "self" ∨ q.name = "cls"
    · have hd : (decide ¬(q.name = "self" ∨ q.name = "cls")) = false := by simp [hq]
      simp only [List.cons_append, rewriteGo, if_pos hq, List.append_eq]
      rw [ih]
      rcases hq with hq' | hq' <;> simp [foundIn, List.any_cons, hq']
    · have hd : (decide ¬(q.name = "self" ∨ q.name = "cls")) = true := by simp [hq]
      have hns : ¬q.name = "self" := fun hh => hq (Or.inl hh)
      have hnc : ¬q.name = "cls" := fun hh => hq (Or.inr hh)
      simp only [List.cons_append, rewriteGo, if_neg hq, List.append_eq]
      rw [ih]
      by_cases hcond : ((b || isDepName deps q.name) && !isDepName deps q.name
          && (q.kind == ParamKind.posOrKw)) = true
      · simp only [hcond, if_true, List.cons_append]
        simp [foundIn, List.any_cons, hns, hnc, Bool.or_assoc]
      · simp only [Bool.not_eq_true] at hcond
        simp only [hcond, Bool.false_eq_true, if_false, List.cons_append]
        simp [foundIn, List.any_cons, hns, hnc, Bool.or_assoc]

theorem rewriteGo_after_injectable (deps : List (String × Option Key))
    (pre post : List Param) (p d : Param)
    (hd_mem : d ∈ pre) (hd_notself : ¬(d.name = "self" ∨ d.name = "cls"))
    (hd_dep : isDepName deps d.name = true)
    (hp_notself : ¬(p.name = "self" ∨ p.name = "cls"))
    (hp_dep : isDepName deps p.name = false)
    (hp_kind : p.kind = .posOrKw) :
    rewriteGo deps false (pre ++ p :: post) =
      rewriteGo deps false pre ++ { p with kind := .kwOnly } :: rewriteGo deps true post := by
  rw [rewriteGo_append]
  have hfound : foundIn deps pre = true := by
    simp only [foundIn, List.any_eq_true]
    exact ⟨d, hd_mem, by simp [hd_notself, hd_dep]⟩
  rw [hfound]
  simp only [Bool.false_or]
  simp only [rewriteGo, if_neg hp_notself]
  simp [hp_dep, hp_kind]

/-! ### Claim theorems -/

/-- C1 (evidence of the code bug): the spec's invariant — after every
top-level `resolve` the resolution stack is empty again and the
per-chain context discarded — holds on the success path but is violated
when the call fails with `CircularDependencyError`.  Resolving `A` in
the mutual-dependency registry `wAB` fails with chain `[A, B, A]` yet
leaves the ContextVar holding the stale stack `[A]`: the detecting
frame appends the repeated key outside its `try` (container.py:67), so
the unwinding `finally` blocks pop one element too few and the
`if not stack: set(None)` cleanup never fires.  A subsequent
independent `resolve(A)` on the same chain then spuriously reports the
cycle `[A, A]`. -/
theorem c1_stack_leak_on_circular_error :
    ((resolve 10 kA wS).map (fun pr => (pr.1, pr.2.stack)) =
        some (.ok 0, none)) ∧
    ((resolve 10 kA wAB).map (fun pr => (pr.1, pr.2.stack)) =
        some (.error (.circularDependency [kA, kB, kA]), some [kA])) ∧
    (((resolve 10 kA wAB).bind fun pr => resolve 10 kA pr.2).map Prod.fst =
        some (.error (.circularDependency [kA, kA]))) := by
  refine ⟨by decide, by decide, by decide⟩

/-- C2: if a key already on the current resolution chain is resolved
again, `resolve` returns at once (for any positive fuel — no infinite
recursion) with a `CircularDependencyError` constructed with
chain = stack-at-detection ++ [key], the full traversal path as
formatted into the error's message; concretely, with providers for `A`
and `B` each resolving the other, resolving `A` fails with the chain
`[A, B, A]`, containing both keys in traversal order. -/
theorem c2_circular_detection :
    (∀ (fuel : Nat) (key : Key) (w : World), key ∈ w.stack.getD [] →
      resolve (fuel + 1) key w =
        some (.error (.circularDependency (w.stack.getD [] ++ [key])),
              { w with stack := some (w.stack.getD [] ++ [key]) })) ∧
    ((resolve 10 kA wAB).map Prod.fst =
      some (.error (.circularDependency [kA, kB, kA]))) := by
  constructor
  · intro fuel key w hmem
    simp only [resolve]
    rw [if_pos hmem]
  · decide

/-- Witness for C2: the detection step at the concrete state reached
while resolving `A` in `wAB` (stack `[A, B]`, `A` resolved again). -/
theorem c2_circular_detection_witness :
    kA ∈ (({ wAB with stack := some [kA, kB] } : World).stack.getD []) ∧
    resolve 5 kA { wAB with stack := some [kA, kB] } =
      some (.error (.circularDependency [kA, kB, kA]),
            { wAB with stack := some [kA, kB, kA] }) := by
  refine ⟨by decide, ?_⟩
  exact c2_circular_detection.1 4 kA { wAB with stack := some [kA, kB] } (by decide)

/-- C3: Singleton idempotence.  If a key `S` is registered with
Singleton scope and a top-level `resolve S` succeeds with instance `i`,
then a second top-level `resolve S` returns the identity-equal
instance `i` and the world unchanged — in particular the factory is not
invoked again (no new instance is allocated, no state changes). -/
theorem c3_singleton_idempotent
    (w w' : World) (S : Key) (pidx : Nat) (p : Provider) (f₁ f₂ i : Nat)
    (hstack : w.stack = none)
    (hfind : assocFind w.container S = some pidx)
    (hheap : heapGet w.heap pidx = some p)
    (hscope : p.scope = .singleton)
    (hres : resolve f₁ S w = some (.ok i, w')) :
    resolve (f₂ + 2) S w' = some (.ok i, w') := by
  obtain ⟨hpres, hstk, hcache⟩ := (resolve_master f₁).1 S w _ w' hres
  obtain ⟨p', hp', hc'⟩ := hcache i pidx p rfl hfind hheap (by simp [hscope])
  have hshape := hpres.2 pidx
  rw [hp', hheap] at hshape
  have hps : provShape p' = provShape p := Option.some.inj hshape
  have hsc' : p'.scope = .singleton := by
    have := congrArg Prod.fst hps
    simpa [provShape, hscope] using this
  have hstk' : w'.stack = none := by
    simp only [ResStack] at hstk
    rw [hstack] at hstk
    simpa [stackAfter] using hstk
  have hfind' : assocFind w'.container S = some pidx := by
    rw [hpres.1]; exact hfind
  exact resolve_cached f₂ S w' pidx p' i hstk' hfind' hp' hsc' hc'

/-- Witness for C3: the registered singleton `A`, resolved twice. -/
theorem c3_singleton_idempotent_witness :
    resolve 10 kA wS = some (.ok 0, wS1) ∧ resolve 2 kA wS1 = some (.ok 0, wS1) := by
  refine ⟨by decide, ?_⟩
  exact c3_singleton_idempotent wS wS1 kA 0 ⟨.singleton, .plain kA, none⟩ 10 0 0
    (by decide) (by decide) (by decide) (by decide) (by decide)

/-- Counterexample to C4 as stated: wrapping `f(dep: D, x: int, /)`
with `D` registered — `dep` is injectable and `x` is a PassThrough
parameter positioned after it, yet the wrapped signature leaves `x`
positional-only, not keyword-only: only `POSITIONAL_OR_KEYWORD`
parameters are converted (injection.py:126). -/
theorem c4_counterexample_positional_only :
    depsToInject sigPO wD = [("dep", some kD)] ∧
    injectSignature sigPO wD = sigPO ∧
    (∀ q ∈ injectSignature sigPO wD, q.kind ≠ ParamKind.kwOnly) := by
  refine ⟨by decide, by decide, by decide⟩

/-- C4 (amended): for `f(dep: D, x: int)` with `D` registered, calling
the wrapped form with only `x`'s intended value positionally fails (the
value binds to `dep` and the underlying call misses `x`), while passing
`x` by keyword succeeds with `dep` auto-resolved and supplied; and in
general every positional-or-keyword PassThrough parameter positioned
after the first injectable parameter is keyword-only in the wrapped
signature — parameters of other kinds (e.g. positional-only) keep their
original kind. -/
theorem c4_keyword_enforcement :
    (syncWrapperCall 10 sig4 (depsToInject sig4 wD) "f" [Value.int 7] [] wD =
      some (.error (.typeErr (.missingArgument "x")), wD)) ∧
    (syncWrapperCall 10 sig4 (depsToInject sig4 wD) "f" [] [("x", Value.int 7)] wD =
      some (.ok [("dep", Value.inst 0), ("x", Value.int 7)], wD1)) ∧
    (∀ (deps : List (String × Option Key)) (pre post : List Param) (p d : Param),
      d ∈ pre → ¬(d.name = "self" ∨ d.name = "cls") →
      isDepName deps d.name = true →
      ¬(p.name = "self" ∨ p.name = "cls") →
      isDepName deps p.name = false → p.kind = .posOrKw →
      rewriteGo deps false (pre ++ p :: post) =
        rewriteGo deps false pre ++
          { p with kind := .kwOnly } :: rewriteGo deps true post) :=
  ⟨by decide, by decide, fun deps pre post p d => rewriteGo_after_injectable deps pre post p d⟩

/-- Witness for C4's general part at the signature of
`f(dep: D, x: int)`. -/
theorem c4_keyword_enforcement_witness :
    rewriteGo (depsToInject sig4 wD) false sig4 =
      rewriteGo (depsToInject sig4 wD) false
          [⟨"dep", .posOrKw, some (.plain kD), Option.none⟩] ++
        { (⟨"x", .posOrKw, some (.plain kInt), Option.none⟩ : Param) with
            kind := .kwOnly } ::
          rewriteGo (depsToInject sig4 wD) true [] :=
  c4_keyword_enforcement.2.2 (depsToInject sig4 wD)
    [⟨"dep", .posOrKw, some (.plain kD), Option.none⟩] []
    ⟨"x", .posOrKw, some (.plain kInt), Option.none⟩
    ⟨"dep", .posOrKw, some (.plain kD), Option.none⟩
    (by decide) (by decide) (by decide) (by decide) (by decide) (by decide)

/-- C5: a parameter annotated `Optional[D]` with `D` unregistered at
wrap time is recorded as OptionalAbsent; calling the wrapped callable
with no arguments succeeds and the parameter is supplied as `None` —
no resolution is attempted and no `ProviderNotFound` is raised (the
registry state is returned unchanged, for any fuel). -/
theorem c5_optional_absent (w : World) (k : Key) (nm : String) (fuel : Nat)
    (hself : ¬(nm = "self" ∨ nm = "cls")) (hunreg : inProvider k w = false) :
    syncWrapperCall fuel [⟨nm, .posOrKw, some (.optional k), Option.none⟩]
      (depsToInject [⟨nm, .posOrKw, some (.optional k), Option.none⟩] w) "f" [] [] w =
      some (.ok [(nm, Value.none)], w) := by
  have hdeps : depsToInject [⟨nm, .posOrKw, some (.optional k), Option.none⟩] w =
      [(nm, Option.none)] := by
    simp [depsToInject, hself, hunreg]
  rw [hdeps]
  simp [syncWrapperCall, injectDeps, bindPartialFn, bindPositional, bindKw,
        applyDefaults, injectLoop, kwargsUpdate, bindCall]

/-- Witness for C5: `Optional` dependency on the unregistered key 3 in
the empty registry. -/
theorem c5_optional_absent_witness :
    inProvider 3 w0 = false ∧
    syncWrapperCall 0 [⟨"dep", .posOrKw, some (.optional 3), Option.none⟩]
      (depsToInject [⟨"dep", .posOrKw, some (.optional 3), Option.none⟩] w0)
      "f" [] [] w0 =
      some (.ok [("dep", Value.none)], w0) :=
  ⟨by decide, c5_optional_absent w0 3 "dep" 0 (by decide) (by decide)⟩

/-- C6: during a wrapped call, an error `e` raised while resolving one
specific injectable parameter is surfaced to the caller as
`DependencyInjectionError` carrying the dependency key, the parameter
name, the callable's name and the original error as its preserved
cause — never swallowed. -/
theorem c6_injection_error_wrapped (fuel : Nat) (k : Key) (nm fname : String)
    (w w' : World) (e : IoCErr)
    (hself : ¬(nm = "self" ∨ nm = "cls"))
    (hreg : inProvider k w = true)
    (hres : resolve fuel k w = some (.error e, w')) :
    syncWrapperCall fuel [⟨nm, .posOrKw, some (.plain k), Option.none⟩]
      (depsToInject [⟨nm, .posOrKw, some (.plain k), Option.none⟩] w) fname [] [] w =
      some (.error (.depInjection k nm fname e), w') := by
  have hdeps : depsToInject [⟨nm, .posOrKw, some (.plain k), Option.none⟩] w =
      [(nm, some k)] := by
    simp [depsToInject, hself, hreg]
  rw [hdeps]
  simp [syncWrapperCall, injectDeps, bindPartialFn, bindPositional, bindKw,
        applyDefaults, injectLoop, hres]

/-- Witness for C6: resolving `A` in the self-cycle registry fails with
`CircularDependencyError`, and the wrapped call surfaces it as a
`DependencyInjectionError` with key, parameter, callable name and
cause. -/
theorem c6_injection_error_wrapped_witness :
    inProvider kA wSelfCyc = true ∧
    resolve 10 kA wSelfCyc =
      some (.error (.circularDependency [kA, kA]), wSelfCycAfter) ∧
    syncWrapperCall 10 sig6 (depsToInject sig6 wSelfCyc) "handler" [] [] wSelfCyc =
      some (.error (.depInjection kA "dep" "handler" (.circularDependency [kA, kA])),
            wSelfCycAfter) := by
  refine ⟨by decide, by decide, ?_⟩
  exact c6_injection_error_wrapped 10 kA "dep" "handler" wSelfCyc wSelfCycAfter
    (.circularDependency [kA, kA]) (by decide) (by decide) (by decide)

/-- `registry_provider` always installs a freshly built provider with
the requested scope and an empty cache at the end of the heap, updates
the dictionary to point at it, and reports a warning exactly when the
key was already registered. -/
theorem registryProvider_eq (r : Registrable) (scope : Scope) (w : World) :
    ∃ fac, registryProvider r scope w =
      ({ w with container := assocUpdate w.container r.key w.heap.length,
                heap := w.heap ++ [⟨scope, fac, none⟩] },
       (assocFind w.container r.key).isSome) := by
  rcases r with k | ⟨k, intros⟩
  · exact ⟨.plain k, rfl⟩
  · rcases intros with _ | ps
    · exact ⟨.plain k, rfl⟩
    · by_cases hemp : ps.isEmpty = true
      · exact ⟨.plain k, by simp [registryProvider, hemp]⟩
      · by_cases hinj : (ps.filterMap fun p => p.hint.bind fun d =>
            if (assocFind w.container d).isSome then some (p.name, d)
            else none).isEmpty = true
        · exact ⟨.plain k, by simp [registryProvider, hemp, hinj]⟩
        · refine ⟨.autowire k (ps.filterMap fun p => p.hint.bind fun d =>
            if (assocFind w.container d).isSome then some (p.name, d) else none), ?_⟩
          simp [registryProvider, hemp, hinj]

/-- C7: alias transparency — after `alias(A, B)` with `B` registered as
a Singleton, the alias and the target resolve through the same provider
object: a successful resolve of the alias caches the instance in that
shared provider, so resolving the target returns the identity-equal
instance; and aliasing to an unregistered target fails with
`ProviderNotFoundError` listing the registered keys. -/
theorem c7_alias_transparency :
    (∀ (w w₁ w₂ : World) (a b : Key) (pidx : Nat) (p : Provider) (f₁ f₂ i : Nat),
      w.stack = none →
      assocFind w.container b = some pidx →
      heapGet w.heap pidx = some p →
      p.scope = .singleton →
      aliasProvider a b w = .ok w₁ →
      resolve f₁ a w₁ = some (.ok i, w₂) →
      resolve (f₂ + 2) b w₂ = some (.ok i, w₂)) ∧
    (∀ (w : World) (a t : Key), assocFind w.container t = none →
      aliasProvider a t w = .error (.providerNotFound t (availableKeys w))) := by
  constructor
  · intro w w₁ w₂ a b pidx p f₁ f₂ i hstack hfind hheap hscope halias hres
    have hw₁ : w₁ = { w with container := assocUpdate w.container a pidx } := by
      simp only [aliasProvider, hfind] at halias
      exact (Except.ok.inj halias).symm
    subst hw₁
    have hfa : assocFind (assocUpdate w.container a pidx) a = some pidx := by
      rw [assocFind_update, if_pos rfl]
    obtain ⟨hpres, hstk, hcache⟩ := (resolve_master f₁).1 a _ _ w₂ hres
    obtain ⟨p', hp', hc'⟩ := hcache i pidx p rfl hfa hheap (by simp [hscope])
    have hshape := hpres.2 pidx
    rw [hp'] at hshape
    have hps : provShape p' = provShape p := by
      have : heapGet ({ w with container := assocUpdate w.container a pidx } : World).heap pidx
          = some p := hheap
      rw [this] at hshape
      exact Option.some.inj hshape
    have hsc' : p'.scope = .singleton := by
      have := congrArg Prod.fst hps
      simpa [provShape, hscope] using this
    have hstk' : w₂.stack = none := by
      simp only [ResStack] at hstk
      have hs₁ : ({ w with container := assocUpdate w.container a pidx } : World).stack = none :=
        hstack
      rw [hs₁] at hstk
      simpa [stackAfter] using hstk
    have hfb : assocFind w₂.container b = some pidx := by
      rw [hpres.1]
      show assocFind (assocUpdate w.container a pidx) b = some pidx
      rw [assocFind_update]
      by_cases hba : b = a
      · rw [if_pos hba]
      · rw [if_neg hba]; exact hfind
    exact resolve_cached f₂ b w₂ pidx p' i hstk' hfb hp' hsc' hc'
  · intro w a t h
    simp [aliasProvider, h]

/-- Witness for C7: `B` aliased to the singleton `A`; resolving the
alias then the target yields the identity-equal instance `0`; and
aliasing key 5 to the unregistered key 3 in the empty registry fails
with the empty availability list. -/
theorem c7_alias_transparency_witness :
    aliasProvider kB kA wS = .ok wAl ∧
    resolve 10 kB wAl = some (.ok 0, wAl1) ∧
    resolve 2 kA wAl1 = some (.ok 0, wAl1) ∧
    aliasProvider 5 3 w0 = .error (.providerNotFound 3 []) := by
  refine ⟨by decide, by decide, ?_, ?_⟩
  · exact c7_alias_transparency.1 wS wAl wAl1 kB kA 0 ⟨.singleton, .plain kA, none⟩ 10 0 0
      (by decide) (by decide) (by decide) (by decide) (by decide) (by decide)
  · exact c7_alias_transparency.2 w0 5 3 (by decide)

/-- C8: duplicate registration never raises — `registry_provider`
emits the warning exactly when the key is already present, then
overwrites: afterwards the key maps to exactly one live provider,
namely the freshly appended one with the requested scope and an empty
cache; concretely, after `A` (already resolved and cached) is
re-registered, the next resolve runs the new factory and allocates a
fresh instance `1` instead of returning the old cached `0`. -/
theorem c8_duplicate_registration_overwrites :
    (∀ (r : Registrable) (scope : Scope) (w : World),
      (w.container.map Prod.fst).Nodup →
      (registryProvider r scope w).2 = (assocFind w.container r.key).isSome ∧
      assocFind (registryProvider r scope w).1.container r.key = some w.heap.length ∧
      (∃ pv, heapGet (registryProvider r scope w).1.heap w.heap.length = some pv ∧
        pv.scope = scope ∧ pv.cache = none) ∧
      ((registryProvider r scope w).1.container.map Prod.fst).count r.key = 1) ∧
    ((registryProvider (.fn kA) .singleton wS1).2 = true ∧
      heapGet wS1.heap 0 = some ⟨.singleton, .plain kA, some 0⟩ ∧
      (resolve 10 kA wRe).map Prod.fst = some (.ok 1)) := by
  constructor
  · intro r scope w hnodup
    obtain ⟨fac, heq⟩ := registryProvider_eq r scope w
    rw [heq]
    refine ⟨rfl, ?_, ?_, ?_⟩
    · show assocFind (assocUpdate w.container r.key w.heap.length) r.key =
        some w.heap.length
      rw [assocFind_update, if_pos rfl]
    · exact ⟨⟨scope, fac, none⟩, heapGet_append_len w.heap _, rfl, rfl⟩
    · exact assocUpdate_count_one w.container r.key w.heap.length hnodup
  · refine ⟨by decide, by decide, by decide⟩

/-- Witness for C8's general part: re-registering the already-present
key `A` over the resolved world `wS1`. -/
theorem c8_duplicate_registration_overwrites_witness :
    (registryProvider (.fn kA) .singleton wS1).2 =
        (assocFind wS1.container (Registrable.fn kA).key).isSome ∧
    assocFind (registryProvider (.fn kA) .singleton wS1).1.container
        (Registrable.fn kA).key = some wS1.heap.length ∧
    (∃ pv, heapGet (registryProvider (.fn kA) .singleton wS1).1.heap wS1.heap.length =
        some pv ∧ pv.scope = .singleton ∧ pv.cache = none) ∧
    ((registryProvider (.fn kA) .singleton wS1).1.container.map Prod.fst).count
        (Registrable.fn kA).key = 1 :=
  c8_duplicate_registration_overwrites.1 (.fn kA) .singleton wS1 (by decide)

/-- C9: an alias is bound to the target's provider object at alias
time, not to the target key: after `alias(A, B)` and a re-registration
of `B`, the alias still points at the heap slot of the provider that
was registered for `B` when the alias was created, while `B` points at
the freshly appended provider — a different object.  Concretely, in
the alias-then-overwrite scenario, resolving the alias returns the old
provider's cached instance `0` while resolving the re-registered key
runs the new factory and returns the fresh instance `1`. -/
theorem c9_alias_bound_to_provider_object :
    (∀ (w w₁ : World) (a b : Key) (pidx : Nat) (p : Provider)
        (r : Registrable) (scope : Scope),
      a ≠ b →
      assocFind w.container b = some pidx →
      heapGet w.heap pidx = some p →
      aliasProvider a b w = .ok w₁ →
      r.key = b →
      assocFind (registryProvider r scope w₁).1.container a = some pidx ∧
      assocFind (registryProvider r scope w₁).1.container b = some w₁.heap.length ∧
      pidx ≠ w₁.heap.length) ∧
    ((resolve 10 kB wC9).map Prod.fst = some (.ok 0) ∧
      ((resolve 10 kB wC9).bind fun pr => resolve 10 kA pr.2).map Prod.fst =
        some (.ok 1)) := by
  constructor
  · intro w w₁ a b pidx p r scope hne hfind hheap halias hkey
    have hw₁ : w₁ = { w with container := assocUpdate w.container a pidx } := by
      simp only [aliasProvider, hfind] at halias
      exact (Except.ok.inj halias).symm
    subst hw₁
    obtain ⟨fac, heq⟩ := registryProvider_eq r scope
      { w with container := assocUpdate w.container a pidx }
    rw [heq, hkey]
    refine ⟨?_, ?_, ?_⟩
    · show assocFind (assocUpdate (assocUpdate w.container a pidx) b _) a = some pidx
      rw [assocFind_update, if_neg hne, assocFind_update, if_pos rfl]
    · show assocFind (assocUpdate (assocUpdate w.container a pidx) b _) b = some _
      rw [assocFind_update, if_pos rfl]
    · have hlt : pidx < w.heap.length := heapGet_lt w.heap pidx p hheap
      exact Nat.ne_of_lt hlt
  · refine ⟨by decide, by decide⟩

/-- Witness for C9's general part: `B` aliased to the resolved
singleton `A`, then `A` re-registered. -/
theorem c9_alias_bound_to_provider_object_witness :
    aliasProvider kB kA wS1 = .ok wAl1 ∧
    (assocFind (registryProvider (.fn kA) .singleton wAl1).1.container kB = some 0 ∧
      assocFind (registryProvider (.fn kA) .singleton wAl1).1.container kA =
        some wAl1.heap.length ∧
      (0 : Nat) ≠ wAl1.heap.length) := by
  refine ⟨by decide, ?_⟩
  exact c9_alias_bound_to_provider_object.1 wS1 wAl1 kB kA 0
    ⟨.singleton, .plain kA, some 0⟩ (.fn kA) .singleton
    (by decide) (by decide) (by decide) (by decide) (by decide)

/-- C10: for a class whose constructor introspection raises
(`intros = none`), `registry_provider` swallows the exception and
registers the class as a plain, non-autowired provider — registration
itself never fails, and the only warning channel (the returned flag) is
the duplicate-registration one, untouched by the lost autowiring. -/
theorem c10_introspection_failure_registers_plain
    (k : Key) (scope : Scope) (w : World) :
    registryProvider (.cls k none) scope w =
      ({ w with container := assocUpdate w.container k w.heap.length,
                heap := w.heap ++ [⟨scope, .plain k, none⟩] },
       (assocFind w.container k).isSome) := rfl
